import Mathlib

/-!
Shallow embedding of the polyverse appconfig parameter-resolution engine
(the canonical, most feature-complete revision of `config.go`: package
`appconfig` with validators, stdin input, the explicit env-read gate and
usage flags), together with theorems checking the natural-language
specification against it.

Modelling conventions:
* Go `map[string]T` values are association lists with first-match lookup
  (`lookupGo`) and in-place overwrite insertion (`insertGo`); Go map
  iteration order is unspecified, so the catalog is carried as a list and
  iterated in list order (one fixed admissible order).
* Go `interface{}` configuration values are the inductive `Value`; a JSON
  `null` (or a nil interface) is `Value.vNull`.  JSON numbers (which Go
  decodes to `float64`) do not occur in any checked property and are not
  modelled as a separate leaf.
* `os.Getenv` is an explicit function `String → String` ("" = unset, as in
  Go).  Opening + decoding the config file is an explicit function
  `String → Option (List (String × Value))` (`none` = open or decode
  failure, both of which make the Go code call `os.Exit(1)`).  The decoded
  stdin document is passed directly.
* Paths on which the Go code calls `os.Exit(1)` are `GoResult.exit`;
  `return config, err` is `GoResult.fail config err`.
-/

/-- The `ParamType` constants of the source. -/
inductive ParamType where
  | PARAM_STRING
  | PARAM_INT
  | PARAM_BOOL
  | PARAM_OBJECT
  | PARAM_CONFIG_READ_ENV
  | PARAM_CONFIG_JSON_FILE
  | PARAM_CONFIG_JSON_STDIN
  | PARAM_CONFIG_NODE
  | PARAM_USAGE
  deriving DecidableEq

/-- A Go `interface{}` holding a configuration value: a string, an int, a
bool, a decoded JSON object, or the nil interface / JSON null. -/
inductive Value where
  | vStr : String → Value
  | vInt : Int → Value
  | vBool : Bool → Value
  | vObj : List (String × Value) → Value
  | vNull : Value

/-- The `Param` struct of the source.  `Default interface{}` being nil is
`default = none`; the `Validate func(interface{}) bool` being nil is
`validate = none`. -/
structure Param where
  type : ParamType := .PARAM_STRING
  default : Option Value := none
  usage : String := ""
  required : Bool := false
  prefixOverride : String := ""
  validate : Option (Value → Bool) := none

/-- The `Config` struct of the source. -/
structure Config where
  values : List (String × Value)
  params : List (String × Param)

/-- Outcome of `NewConfig`: a normal `(config, nil)` return, a
`(config, err)` return, or a path that calls `os.Exit(1)`. -/
inductive GoResult (α : Type) where
  | ok : α → GoResult α
  | fail : α → String → GoResult α
  | exit : GoResult α

/-- Go map read: first binding wins (Go maps have unique keys; insertion
below preserves that). -/
def lookupGo {α : Type} : List (String × α) → String → Option α
  | [], _ => none
  | (k, v) :: rest, key => if k = key then some v else lookupGo rest key

/-- Go map write: overwrite the existing binding in place, else append. -/
def insertGo {α : Type} : List (String × α) → String → α → List (String × α)
  | [], k, v => [(k, v)]
  | (k', v') :: rest, k, v =>
      if k' = k then (k, v) :: rest else (k', v') :: insertGo rest k v

/-- Go read of a `map[string]string`: missing keys read as `""`. -/
def lookupStr (m : List (String × String)) (k : String) : String :=
  (lookupGo m k).getD ""

/-- Go read of a `map[string]interface{}` as used by the `!= nil` guards of
the resolution loop: an absent key and an entry decoded from JSON `null`
both read as the nil interface, i.e. `none` here. -/
def goDocGet (m : List (String × Value)) (k : String) : Option Value :=
  match lookupGo m k with
  | some .vNull => none
  | r => r

/-- Rendering of `strconv.Quote` for the plain strings that occur in
`strconv` error messages here. -/
def quoteGo (s : String) : String := "\"" ++ s ++ "\""

/-- Go `strconv.ParseBool`: the exact accepted spellings, and on any other
input the `strconv.NumError` syntax error. -/
def parseBoolE (s : String) : Except String Bool :=
  if s = "1" ∨ s = "t" ∨ s = "T" ∨ s = "true" ∨ s = "TRUE" ∨ s = "True" then .ok true
  else if s = "0" ∨ s = "f" ∨ s = "F" ∨ s = "false" ∨ s = "FALSE" ∨ s = "False" then .ok false
  else .error ("strconv.ParseBool: parsing " ++ quoteGo s ++ ": invalid syntax")

/-- `strconv.ParseBool` when the caller only looks at the boolean result
(`ok, _ :=` / `b, err :=` with `err` checked separately). -/
def parseBool (s : String) : Option Bool := (parseBoolE s).toOption

/-- Decimal digits to a number (used by the `Atoi` model). -/
def digitsToNat (ds : List Char) : Nat :=
  ds.foldl (fun n c => n * 10 + (c.toNat - '0'.toNat)) 0

/-- Go `strconv.Atoi`, syntax only: optional sign then at least one digit;
`none` is a syntax error.  (The int64 range clamp of `ErrRange` is not
modelled; no checked property involves it.) -/
def atoiGoE (s : String) : Option Int :=
  match s.data with
  | [] => none
  | '+' :: ds => if ds ≠ [] ∧ ds.all (·.isDigit) then some (digitsToNat ds) else none
  | '-' :: ds => if ds ≠ [] ∧ ds.all (·.isDigit) then some (-(digitsToNat ds : Int)) else none
  | ds => if ds.all (·.isDigit) then some ((digitsToNat ds : Int)) else none

/-- `strconv.Atoi` as used with its error ignored: a syntax error yields the
zero result that Go's `Atoi` returns alongside the error. -/
def atoiGo (s : String) : Int := (atoiGoE s).getD 0

/-- `const default_prefix = "-"`. -/
def defaultPfx : String := "-"

/-- Go `strings.Split` with a one-character separator, on the underlying
character list: all substrings between consecutive separators (length of the
result = number of separators + 1). -/
def goSplit (sep : Char) : List Char → List (List Char)
  | [] => [[]]
  | c :: cs =>
      if c = sep then [] :: goSplit sep cs
      else
        match goSplit sep cs with
        | [] => [[c]]
        | l :: ls => (c :: l) :: ls

/-- Go `strings.Split(s, sep)` for a one-character separator. -/
def goStringsSplit (s : String) (sep : Char) : List String :=
  (goSplit sep s.data).map (fun cs => ⟨cs⟩)

/-- Go `strings.TrimPrefix`: remove `pre` from the front of `s` when it is
there, else return `s` unchanged. -/
def trimPfx (s pre : String) : String :=
  if pre.data.isPrefixOf s.data then ⟨s.data.drop pre.length⟩ else s

/-- The switch prefix of a parameter: its `PrefixOverride` when non-empty,
else `default_prefix` (both occurrences of this pattern in the source —
`GetKeysWithPrefix` and `processCommandLine` — compute exactly this). -/
def pfxOf (p : Param) : String :=
  if p.prefixOverride ≠ "" then p.prefixOverride else defaultPfx

/-- `Config.GetParamKeysByType`: names of all catalog entries of the given
type, in catalog (iteration) order. -/
def getParamKeysByType (c : Config) (t : ParamType) : List String :=
  (c.params.filter (fun np => np.2.type == t)).map (·.1)

/-- `Config.GetKeysWithPrefix`: every parameter name mapped to its switch
spelling `prefix + name`. -/
def getKeysWithPfx (c : Config) : List (String × String) :=
  c.params.map (fun np => (np.1, pfxOf np.2 ++ np.1))

/-- The inner loop of `processCommandLine` for one argument: scan the
catalog; per candidate parameter split the argument at every `=`
(`kv := strings.Split(os.Args[i], "=")`), strip that parameter's prefix from
`kv[0]`, and on an exact name match record `kv[0]`-stripped ↦ `"true"` when
there was no `=`, else ↦ `kv[1]`.  (`kv` is never empty, so the `kv[0]` read
is total; `headD`/`getD` mirror the always-in-bounds Go indexing.) -/
def matchArg (params : List (String × Param)) (argStr : String) :
    Option (String × String) :=
  match params with
  | [] => none
  | (name, p) :: rest =>
      let kv := goStringsSplit argStr '='
      let pfx := pfxOf p
      let arg := trimPfx (kv.headD "") pfx
      if name = arg then
        some (arg, if kv.length = 1 then "true" else kv.getD 1 "")
      else matchArg rest argStr

/-- Outer loop of `processCommandLine`: process arguments left to right,
accumulating the args map; an argument matching no parameter returns the
`'%s' is not a supported flag.` error (and the nil map). -/
def processArgsLoop (params : List (String × Param)) :
    List String → List (String × String) → Except String (List (String × String))
  | [], args => .ok args
  | a :: rest, args =>
      match matchArg params a with
      | some (k, v) => processArgsLoop params rest (insertGo args k v)
      | none => .error ("'" ++ a ++ "' is not a supported flag.")

/-- `processCommandLine(params)` over the supplied `os.Args[1:]`. -/
def processCommandLine (params : List (String × Param)) (osArgs : List String) :
    Except String (List (String × String)) :=
  processArgsLoop params osArgs []

/-- `getValsFromEnvVars`: for every catalog name, record the environment
value when it is non-empty. -/
def getValsFromEnvVars (params : List (String × Param)) (env : String → String) :
    List (String × String) :=
  params.foldl
    (fun envs np => if env np.1 ≠ "" then insertGo envs np.1 (env np.1) else envs) []

/-- The loop of `isCommandLineUsageTypeTrue` over the `PARAM_USAGE` keys:
for each flag that has an entry in the command-line args map, `ParseBool`
it; a parse error is returned as an error, a `true` sets
`config.values[flag] = true` and reports `true`. -/
def usageFlagsLoop (args : List (String × String)) (c : Config) :
    List String → Except String (Bool × Config)
  | [] => .ok (false, c)
  | f :: rest =>
      match lookupGo args f with
      | some raw =>
          match parseBoolE raw with
          | .error e => .error e
          | .ok true => .ok (true, ⟨insertGo c.values f (.vBool true), c.params⟩)
          | .ok false => usageFlagsLoop args c rest
      | none => usageFlagsLoop args c rest

/-- `isCommandLineUsageTypeTrue(args, &config)`. -/
def isCommandLineUsageTypeTrue (args : List (String × String)) (c : Config) :
    Except String (Bool × Config) :=
  usageFlagsLoop args c (getParamKeysByType c .PARAM_USAGE)

/-- `getPreliminaryConfigValue`: the first catalog key of the given type,
read from the command-line args map when present there (even if empty),
else from a string-kinded `Default`, else `""`. -/
def getPreliminaryConfigValue (c : Config) (args : List (String × String))
    (params : List (String × Param)) (t : ParamType) : String :=
  let keys := getParamKeysByType c t
  let configKey := match keys with | [] => "" | k :: _ => k
  if configKey ≠ "" then
    match lookupGo args configKey with
    | some str => str
    | none =>
        match lookupGo params configKey with
        | some p => match p.default with | some (.vStr s) => s | _ => ""
        | none => ""
  else ""

/-- The root-node selection of `parseJsonFromFile` (decoding itself is the
caller-supplied document): with a non-empty node name the document must hold
that key with an object value, which replaces the document; failure is the
`os.Exit(1)` path, modelled as `none`. -/
def parseJsonNode (doc : List (String × Value)) (node : String) :
    Option (List (String × Value)) :=
  if node ≠ "" then
    match lookupGo doc node with
    | some (.vObj m) => some m
    | _ => none
  else some doc

/-- The layered assignment of the final resolution loop, for one parameter:
start from the default when non-nil, then in turn let a non-nil config-file
entry, a non-nil stdin entry, a non-empty environment string and a non-empty
command-line string overwrite it.  The result is the raw value before the
type-coercion switch (`none` = the key was never assigned). -/
def layerParamValue (dflt : Option Value) (fileV stdinV : Option Value)
    (envV argV : String) : Option Value :=
  let v0 := dflt
  let v1 := match fileV with | some x => some x | none => v0
  let v2 := match stdinV with | some x => some x | none => v1
  let v3 := if envV ≠ "" then some (Value.vStr envV) else v2
  if argV ≠ "" then some (Value.vStr argV) else v3

/-- The type-coercion switch of the resolution loop: only string-typed
values of `PARAM_BOOL`/`PARAM_INT` parameters are converted, with the
`ParseBool`/`Atoi` errors ignored (yielding `false`/`0`). -/
def coerceValue (t : ParamType) (v : Value) : Value :=
  match t, v with
  | .PARAM_BOOL, .vStr s => .vBool ((parseBool s).getD false)
  | .PARAM_INT, .vStr s => .vInt (atoiGo s)
  | _, _ => v

/-- The kind-specific zero value assigned when no source provided a value
and the parameter is not required.  `PARAM_OBJECT` has no case in the
source's switch, so the key simply stays absent (`none`). -/
def zeroValueFor : ParamType → Option Value
  | .PARAM_STRING | .PARAM_CONFIG_JSON_FILE | .PARAM_CONFIG_NODE => some (.vStr "")
  | .PARAM_INT => some (.vInt 0)
  | .PARAM_BOOL | .PARAM_USAGE | .PARAM_CONFIG_JSON_STDIN | .PARAM_CONFIG_READ_ENV =>
      some (.vBool false)
  | .PARAM_OBJECT => none

/-- Rendering of `fmt`'s `%v` for the values of this model (used only inside
the validation-failure message, whose exact text no checked property
depends on). -/
def showValue : Value → String
  | .vStr s => s
  | .vInt n => toString n
  | .vBool b => cond b "true" "false"
  | .vObj _ => "map[...]"
  | .vNull => "<nil>"

/-- Distinguishes the two error returns of the resolution loop:
`return config, err` for a missing required parameter versus
`return Config{}, err` for a failed validator. -/
inductive StepErr where
  | missingRequired : String → StepErr
  | validationFailed : String → StepErr

/-- The validation block of the resolution loop, reached when the key holds
a value: a present validator returning false aborts with the
`Validation failed` error (and, at the call site, the empty `Config{}`). -/
def validateCheck (p : Param) (name : String) (v : Value) :
    Except StepErr (Option Value) :=
  match p.validate with
  | some f =>
      if f v then .ok (some v)
      else .error (.validationFailed
        ("Validation failed for param " ++ name ++ " with value " ++ showValue v))
  | none => .ok (some v)

/-- One iteration of the final resolution loop of `NewConfig` for parameter
`name`: layer the sources, then either fail on a missing required value,
or assign the kind-specific zero value, then coerce and validate.  The
result is the value stored for `name` (`none` when the key stays absent,
which skips both the coercion and the validation blocks, as both are
guarded by presence in the source). -/
def stepParam (fv sv : List (String × Value)) (ev av : List (String × String))
    (name : String) (p : Param) : Except StepErr (Option Value) :=
  let v := layerParamValue p.default (goDocGet fv name) (goDocGet sv name)
    (lookupStr ev name) (lookupStr av name)
  match v with
  | none =>
      if p.required then
        .error (.missingRequired ("Missing required parameter '" ++ name ++ "'."))
      else
        match zeroValueFor p.type with
        | none => .ok none
        | some z => validateCheck p name (coerceValue p.type z)
  | some v0 => validateCheck p name (coerceValue p.type v0)

/-- The final resolution loop of `NewConfig` over the catalog: a missing
required parameter returns the config accumulated so far together with the
error; a failed validator returns the empty `Config{}` with the error. -/
def finalizeParams (fv sv : List (String × Value)) (ev av : List (String × String)) :
    List (String × Param) → Config → GoResult Config
  | [], c => .ok c
  | (name, p) :: rest, c =>
      match stepParam fv sv ev av name p with
      | .error (.missingRequired msg) => .fail c msg
      | .error (.validationFailed msg) => .fail ⟨[], []⟩ msg
      | .ok none => finalizeParams fv sv ev av rest c
      | .ok (some v) => finalizeParams fv sv ev av rest ⟨insertGo c.values name v, c.params⟩

/-- The environment map built by `NewConfig`: read the environment variables
only when the `PARAM_CONFIG_READ_ENV` preliminary value `ParseBool`s to
true (with the parse error ignored), else leave the map empty. -/
def newConfigEnvs (c : Config) (args : List (String × String))
    (params : List (String × Param)) (env : String → String) :
    List (String × String) :=
  if (parseBool (getPreliminaryConfigValue c args params .PARAM_CONFIG_READ_ENV)).getD false
  then getValsFromEnvVars params env else []

/-- The config-file document loaded by `NewConfig`: with a non-empty
preliminary `PARAM_CONFIG_JSON_FILE` value, open and decode that file and
select the preliminary `PARAM_CONFIG_NODE` root node (`none` = an
`os.Exit(1)` path); with no file named, the empty map. -/
def newConfigFileVals (c : Config) (args : List (String × String))
    (params : List (String × Param)) (fs : String → Option (List (String × Value))) :
    Option (List (String × Value)) :=
  let configJson := getPreliminaryConfigValue c args params .PARAM_CONFIG_JSON_FILE
  if configJson ≠ "" then
    match fs configJson with
    | none => none
    | some doc => parseJsonNode doc (getPreliminaryConfigValue c args params .PARAM_CONFIG_NODE)
  else some []

/-- The stdin document loaded by `NewConfig`: decoded and node-selected only
when the `PARAM_CONFIG_JSON_STDIN` preliminary value `ParseBool`s to true
(parse error ignored); otherwise the empty map. -/
def newConfigStdinVals (c : Config) (args : List (String × String))
    (params : List (String × Param)) (stdinDoc : List (String × Value)) :
    Option (List (String × Value)) :=
  if (parseBool (getPreliminaryConfigValue c args params .PARAM_CONFIG_JSON_STDIN)).getD false
  then parseJsonNode stdinDoc (getPreliminaryConfigValue c args params .PARAM_CONFIG_NODE)
  else some []

/-- `NewConfig(params)`, with the process inputs explicit: `osArgs` is
`os.Args[1:]`, `env` is `os.Getenv`, `fs` opens-and-decodes a named config
file (`none` = the open or decode failure, an `os.Exit(1)` path), and
`stdinDoc` is the decoded standard-input document.  (The syslog logger
construction cannot fail in this model.) -/
def newConfig (params : List (String × Param)) (osArgs : List String)
    (env : String → String) (fs : String → Option (List (String × Value)))
    (stdinDoc : List (String × Value)) : GoResult Config :=
  let config : Config := ⟨[], params⟩
  match processCommandLine params osArgs with
  | .error _ => .exit
  | .ok args =>
    match isCommandLineUsageTypeTrue args config with
    | .error _ => .exit
    | .ok (b, config) =>
      if b then .ok config
      else
        let envs := newConfigEnvs config args params env
        match newConfigFileVals config args params fs with
        | none => .exit
        | some configFileVals =>
          match newConfigStdinVals config args params stdinDoc with
          | none => .exit
          | some configStdinVals =>
            finalizeParams configFileVals configStdinVals envs args params config

/-- The value map the resolution loop has accumulated after processing a
catalog prefix whose steps all succeed: each step's produced value inserted
in iteration order (stated to characterize the config a missing-required
failure returns). -/
def accumValues (fv sv : List (String × Value)) (ev av : List (String × String)) :
    List (String × Param) → Config → Config
  | [], c => c
  | (name, p) :: rest, c =>
      match stepParam fv sv ev av name p with
      | .ok (some v) => accumValues fv sv ev av rest ⟨insertGo c.values name v, c.params⟩
      | .ok none => accumValues fv sv ev av rest c
      | .error _ => c

/-- `Config.Get`. -/
def Config.Get (c : Config) (key : String) : Option Value :=
  lookupGo c.values key

/-- `Config.GetInt`: compares `reflect.TypeOf(c.values[key]).String()` with
`"int"`.  When the key is absent (or holds the nil interface),
`reflect.TypeOf` returns nil and the `.String()` call panics; the panic is
modelled as `none`. -/
def Config.GetInt (c : Config) (key : String) : Option Int :=
  match lookupGo c.values key with
  | none => none
  | some .vNull => none
  | some (.vInt n) => some n
  | some _ => some 0

/-- `Config.GetBool`; see `Config.GetInt` for the nil-type panic. -/
def Config.GetBool (c : Config) (key : String) : Option Bool :=
  match lookupGo c.values key with
  | none => none
  | some .vNull => none
  | some (.vBool b) => some b
  | some _ => some false

/-- `Config.GetString`; see `Config.GetInt` for the nil-type panic. -/
def Config.GetString (c : Config) (key : String) : Option String :=
  match lookupGo c.values key with
  | none => none
  | some .vNull => none
  | some (.vStr s) => some s
  | some _ => some ""

/-- Whether a string contains a `=` (claim-side notion for the command-line
value rules). -/
def containsEq (s : String) : Bool := decide ('=' ∈ s.data)

/-- Claim-side notion: the entire substring after the first `=` of `s`,
taken verbatim. -/
def afterFirstEq (s : String) : String :=
  ⟨(s.data.dropWhile (· != '=')).drop 1⟩

/-- Code-side notion: the substring strictly between the first `=` of `s`
and the next `=` after it (to the end when there is no further `=`). -/
def betweenFirstEqs (s : String) : String :=
  ⟨((s.data.dropWhile (· != '=')).drop 1).takeWhile (· != '=')⟩

/-- A catalog with one plain string parameter and no
`PARAM_CONFIG_READ_ENV` entry. -/
def psAddr : List (String × Param) := [("addr", {})]

/-- A catalog whose `PARAM_CONFIG_READ_ENV` flag defaults to the string
`"true"` (env-read gate on). -/
def psReadOn : List (String × Param) :=
  [("read-env", { type := .PARAM_CONFIG_READ_ENV, default := some (.vStr "true") }),
   ("addr", {})]

/-- A catalog whose `PARAM_CONFIG_READ_ENV` flag defaults to the string
`"false"` (env-read gate present but off). -/
def psReadOff : List (String × Param) :=
  [("read-env", { type := .PARAM_CONFIG_READ_ENV, default := some (.vStr "false") }),
   ("addr", {})]

/-- An environment in which `addr` is set. -/
def envAddr : String → String := fun s => if s = "addr" then "1.2.3.4" else ""

/-- A catalog with one plain parameter named `key`. -/
def psKey : List (String × Param) := [("key", {})]

/-- A catalog with a usage flag and a required parameter with no default. -/
def psHelpReq : List (String × Param) :=
  [("help", { type := .PARAM_USAGE }), ("x", { required := true })]

/-- An environment in which the usage flag `help` is set to `"true"`. -/
def envHelpTrue : String → String := fun s => if s = "help" then "true" else ""

/-- A catalog with only a usage flag. -/
def psHelp : List (String × Param) := [("help", { type := .PARAM_USAGE })]

/-- A catalog with one required parameter, as in the spec's
`remote_addr` example. -/
def psRemote : List (String × Param) := [("remote_addr", { required := true })]

/-- A catalog with a defaulted string parameter followed by a required
parameter with no default. -/
def psPartial : List (String × Param) :=
  [("a", { default := some (.vStr "x") }), ("b", { required := true })]

/-- A catalog with one `PARAM_OBJECT` parameter (which receives no
kind-specific zero value). -/
def psObj : List (String × Param) := [("o", { type := .PARAM_OBJECT })]

/-- A config whose catalog has a parameter with a prefix override. -/
def cfgDebug : Config := ⟨[], [("debug", { prefixOverride := "--" })]⟩

/-- The all-unset environment. -/
def env0 : String → String := fun _ => ""

/-- The empty file system: every open fails. -/
def fs0 : String → Option (List (String × Value)) := fun _ => none

theorem string_data_append (a b : String) : (a ++ b).data = a.data ++ b.data := rfl

theorem isPfxOf_append (l₁ l₂ : List Char) : l₁.isPrefixOf (l₁ ++ l₂) = true := by
  induction l₁ with
  | nil => simp [List.isPrefixOf]
  | cons a l ih => simp [List.isPrefixOf, ih]

/-- Stripping a prefix that was just prepended recovers the original. -/
theorem trimPfx_append (pre s : String) : trimPfx (pre ++ s) pre = s := by
  unfold trimPfx
  rw [string_data_append, isPfxOf_append]
  simp only [if_pos]
  show (⟨(pre.data ++ s.data).drop pre.data.length⟩ : String) = s
  rw [List.drop_left]

theorem lookupGo_insertGo {α : Type} (m : List (String × α)) (k key : String) (v : α) :
    lookupGo (insertGo m k v) key = if k = key then some v else lookupGo m key := by
  induction m with
  | nil => simp [insertGo, lookupGo]
  | cons hd rest ih =>
      obtain ⟨k', v'⟩ := hd
      simp only [insertGo]
      split_ifs with h1 <;> simp only [lookupGo, ih] <;> split_ifs <;> simp_all

theorem getVals_aux (env : String → String) (p : String) (h : env p = "")
    (params : List (String × Param)) :
    ∀ acc : List (String × String), lookupGo acc p = none →
      lookupGo
        (List.foldl
          (fun envs np => if env np.1 ≠ "" then insertGo envs np.1 (env np.1) else envs)
          acc params) p = none := by
  induction params with
  | nil => intro acc hacc; simpa using hacc
  | cons np rest ih =>
      intro acc hacc
      simp only [List.foldl]
      apply ih
      by_cases he : env np.1 ≠ ""
      · rw [if_pos he, lookupGo_insertGo]
        split_ifs with h2
        · exact absurd (h2 ▸ h) he
        · exact hacc
      · rwa [if_neg he]

theorem lookupStr_getValsFromEnvVars (params : List (String × Param))
    (env : String → String) (p : String) (h : env p = "") :
    lookupStr (getValsFromEnvVars params env) p = "" := by
  unfold lookupStr getValsFromEnvVars
  rw [getVals_aux env p h params [] rfl]
  rfl

theorem lookupStr_newConfigEnvs (c : Config) (args : List (String × String))
    (params : List (String × Param)) (env : String → String) (p : String)
    (h : env p = "") :
    lookupStr (newConfigEnvs c args params env) p = "" := by
  unfold newConfigEnvs
  split
  · exact lookupStr_getValsFromEnvVars params env p h
  · rfl

theorem usageLoop_false (args : List (String × String)) (c c' : Config)
    (l : List String) (h : usageFlagsLoop args c l = .ok (false, c')) : c' = c := by
  induction l with
  | nil =>
      simp only [usageFlagsLoop, Except.ok.injEq, Prod.mk.injEq, true_and] at h
      exact h.symm
  | cons f rest ih =>
      simp only [usageFlagsLoop] at h
      cases hl : lookupGo args f with
      | none => simp only [hl] at h; exact ih h
      | some raw =>
          simp only [hl] at h
          cases hp : parseBoolE raw with
          | error e => simp only [hp] at h; cases h
          | ok b =>
              simp only [hp] at h
              cases b
              · exact ih h
              · simp at h

theorem parseBool_none (raw : String) (h : parseBool raw = none) :
    ∃ e, parseBoolE raw = .error e := by
  unfold parseBool at h
  cases hp : parseBoolE raw with
  | error e => exact ⟨e, rfl⟩
  | ok b => rw [hp] at h; cases h

theorem goSplit_head (sep : Char) (l : List Char) :
    ∃ r, goSplit sep l = (l.takeWhile (· != sep)) :: r := by
  induction l with
  | nil => exact ⟨[], rfl⟩
  | cons c cs ih =>
      by_cases hc : c = sep
      · refine ⟨goSplit sep cs, ?_⟩
        simp [goSplit, hc, List.takeWhile, bne_self_eq_false]
      · obtain ⟨r, hr⟩ := ih
        have hb : (c != sep) = true := bne_iff_ne.mpr hc
        refine ⟨r, ?_⟩
        simp [goSplit, hc, hr, List.takeWhile, hb]

theorem goSplit_not_mem (sep : Char) (l : List Char) (h : sep ∉ l) :
    goSplit sep l = [l] := by
  induction l with
  | nil => rfl
  | cons c cs ih =>
      have hc : ¬ c = sep := fun he => h (by rw [he]; exact List.mem_cons_self _ _)
      have hcs : sep ∉ cs := fun hm => h (List.mem_cons_of_mem _ hm)
      simp [goSplit, hc, ih hcs]

theorem goSplit_mem_shape (sep : Char) (l : List Char) (h : sep ∈ l) :
    ∃ x r, goSplit sep l
      = x :: (((l.dropWhile (· != sep)).drop 1).takeWhile (· != sep)) :: r := by
  induction l with
  | nil => cases h
  | cons c cs ih =>
      by_cases hc : c = sep
      · obtain ⟨r, hr⟩ := goSplit_head sep cs
        refine ⟨[], r, ?_⟩
        simp [goSplit, hc, hr, List.dropWhile, bne_self_eq_false]
      · have hcs : sep ∈ cs := by
          cases List.mem_cons.mp h with
          | inl he => exact absurd he.symm hc
          | inr hm => exact hm
        have hb : (c != sep) = true := bne_iff_ne.mpr hc
        obtain ⟨x, r, hr⟩ := ih hcs
        refine ⟨c :: x, r, ?_⟩
        simp [goSplit, hc, hr, List.dropWhile, hb]

theorem matchArg_val (params : List (String × Param)) (a k v : String)
    (h : matchArg params a = some (k, v)) :
    v = if (goStringsSplit a '=').length = 1 then "true"
        else (goStringsSplit a '=').getD 1 "" := by
  induction params with
  | nil => simp [matchArg] at h
  | cons np rest ih =>
      obtain ⟨name, p⟩ := np
      simp only [matchArg] at h
      split at h
      · cases h
        rfl
      · exact ih h

/-- C1: the raw value chosen by the final resolution loop before type
coercion (the value `layerParamValue` computes, which `stepParam` then
coerces) follows the strict precedence: a non-empty command-line entry wins
over everything; otherwise a non-empty environment entry; otherwise a
non-nil stdin-document entry; otherwise a non-nil file-document entry;
otherwise the catalog default.  In particular (first conjunct) a key present
in document, environment and command-line sources resolves to the
command-line value. -/
theorem c1_raw_precedence (dflt fileV stdinV : Option Value) (envV argV : String) :
    (argV ≠ "" → layerParamValue dflt fileV stdinV envV argV = some (.vStr argV)) ∧
    (argV = "" → envV ≠ "" →
      layerParamValue dflt fileV stdinV envV argV = some (.vStr envV)) ∧
    (∀ x, argV = "" → envV = "" → stdinV = some x →
      layerParamValue dflt fileV stdinV envV argV = some x) ∧
    (∀ x, argV = "" → envV = "" → stdinV = none → fileV = some x →
      layerParamValue dflt fileV stdinV envV argV = some x) ∧
    (argV = "" → envV = "" → stdinV = none → fileV = none →
      layerParamValue dflt fileV stdinV envV argV = dflt) := by
  refine ⟨?_, ?_, ?_, ?_, ?_⟩ <;> intros <;> simp_all [layerParamValue]

/-- Witness for C1: with all five sources present, the command-line raw
string is the one chosen. -/
theorem c1_raw_precedence_witness :
    layerParamValue (some (.vStr "d")) (some (.vStr "f")) (some (.vStr "s")) "e" "c"
      = some (.vStr "c") :=
  (c1_raw_precedence (some (.vStr "d")) (some (.vStr "f")) (some (.vStr "s")) "e" "c").1
    (by decide)

/-- C9: every catalog entry's switch spelling produced by
`GetKeysWithPrefix` is its prefix (override when non-empty, else `"-"`)
prepended to its name, and `strings.TrimPrefix`-stripping that exact prefix
returns the name unchanged. -/
theorem c9_roundtrip (c : Config) (name : String) (p : Param)
    (h : (name, p) ∈ c.params) :
    (name, pfxOf p ++ name) ∈ getKeysWithPfx c ∧
    trimPfx (pfxOf p ++ name) (pfxOf p) = name := by
  constructor
  · exact List.mem_map_of_mem (fun np => (np.1, pfxOf np.2 ++ np.1)) h
  · exact trimPfx_append (pfxOf p) name

/-- Witness for C9 at a parameter with prefix override `"--"`. -/
theorem c9_roundtrip_witness :
    ("debug", pfxOf { prefixOverride := "--" } ++ "debug") ∈ getKeysWithPfx cfgDebug ∧
    trimPfx (pfxOf { prefixOverride := "--" } ++ "debug")
      (pfxOf { prefixOverride := "--" }) = "debug" :=
  c9_roundtrip cfgDebug "debug" { prefixOverride := "--" } (List.mem_cons_self _ _)

/-- C8 counterexample: a catalog `PARAM_OBJECT` key that no source supplies
receives no kind-specific zero value, so after a successful resolution the
key is absent from the value map and all three getters dereference a nil
`reflect.Type` and panic (modelled `none`) instead of returning the zero
value without failing. -/
theorem c8_getters_counterexample :
    newConfig psObj [] env0 fs0 [] = .ok ⟨[], psObj⟩ ∧
    Config.GetInt ⟨[], psObj⟩ "o" = none ∧
    Config.GetBool ⟨[], psObj⟩ "o" = none ∧
    Config.GetString ⟨[], psObj⟩ "o" = none :=
  ⟨rfl, rfl, rfl, rfl⟩

/-- C8 as amended: when the stored value exists (and is not nil) the getters
return it on a native-type match and the zero value otherwise; when the key
is absent from the value map every getter panics (`none`) rather than
returning the zero value. -/
theorem c8_getters_amended (c : Config) (key : String) :
    (lookupGo c.values key = none →
      Config.GetInt c key = none ∧ Config.GetBool c key = none ∧
      Config.GetString c key = none) ∧
    (∀ n : Int, lookupGo c.values key = some (.vInt n) →
      Config.GetInt c key = some n) ∧
    (∀ b : Bool, lookupGo c.values key = some (.vBool b) →
      Config.GetBool c key = some b) ∧
    (∀ s : String, lookupGo c.values key = some (.vStr s) →
      Config.GetString c key = some s) ∧
    (∀ v : Value, lookupGo c.values key = some v → v ≠ .vNull →
      ((∀ n, v ≠ .vInt n) → Config.GetInt c key = some 0) ∧
      ((∀ b, v ≠ .vBool b) → Config.GetBool c key = some false) ∧
      ((∀ s, v ≠ .vStr s) → Config.GetString c key = some "")) := by
  refine ⟨?_, ?_, ?_, ?_, ?_⟩
  · intro h
    simp [Config.GetInt, Config.GetBool, Config.GetString, h]
  · intro n h
    simp [Config.GetInt, h]
  · intro b h
    simp [Config.GetBool, h]
  · intro s h
    simp [Config.GetString, h]
  · intro v h hnull
    refine ⟨?_, ?_, ?_⟩ <;> intro hne <;>
      cases v <;>
      simp_all [Config.GetInt, Config.GetBool, Config.GetString]

/-- Witness for C8 as amended, at a config holding a string value. -/
theorem c8_getters_amended_witness :
    Config.GetString ⟨[("port", .vStr ":8080")], []⟩ "port" = some ":8080" ∧
    Config.GetInt ⟨[("port", .vStr ":8080")], []⟩ "port" = some 0 ∧
    Config.GetInt ⟨[], []⟩ "port" = none :=
  ⟨(c8_getters_amended ⟨[("port", .vStr ":8080")], []⟩ "port").2.2.2.1 ":8080" rfl,
   ((c8_getters_amended ⟨[("port", .vStr ":8080")], []⟩ "port").2.2.2.2
      (.vStr ":8080") rfl (fun h => nomatch h)).1 (fun _ h => nomatch h),
   ((c8_getters_amended ⟨[], []⟩ "port").1 rfl).1⟩

/-- C2 counterexample: with no `PARAM_CONFIG_READ_ENV` parameter in the
catalog and the environment variable `addr` set, resolution never consults
the environment: `addr` resolves to the kind zero value `""`, not to the
environment value — environment lookup is skipped, not unconditional. -/
theorem c2_env_counterexample :
    envAddr "addr" = "1.2.3.4" ∧
    newConfig psAddr [] envAddr fs0 [] = .ok ⟨[("addr", .vStr "")], psAddr⟩ ∧
    ("" : String) ≠ "1.2.3.4" :=
  ⟨rfl, rfl, by decide⟩

/-- C3 counterexample: for the declared parameter `key`, the argument
`-key=a=b` is recorded with value `"a"` (the `strings.Split` field between
the first and second `=`), not the verbatim remainder `"a=b"` the claim
requires. -/
theorem c3_value_counterexample :
    processCommandLine psKey ["-key=a=b"] = .ok [("key", "a")] ∧
    afterFirstEq "-key=a=b" = "a=b" ∧
    ("a" : String) ≠ "a=b" :=
  ⟨rfl, rfl, by decide⟩

/-- C4 counterexample: the usage flag `help` is supplied as `"true"` in the
environment (and parses as boolean true), yet `NewConfig` does not
return early: it runs full resolution, assigns `help = false`, and fails on
the required parameter `x` — the usage short-circuit consults only the
command-line source. -/
theorem c4_usage_counterexample :
    envHelpTrue "help" = "true" ∧
    parseBool "true" = some true ∧
    newConfig psHelpReq [] envHelpTrue fs0 [] =
      .fail ⟨[("help", .vBool false)], psHelpReq⟩ "Missing required parameter 'x'." :=
  ⟨rfl, rfl, rfl⟩

/-- C7 counterexample: a missing required parameter makes `NewConfig` return
a non-nil error together with a config whose value map already holds the
resolved value of the earlier, non-usage parameter `a` — a partially
populated value map. -/
theorem c7_partial_counterexample :
    newConfig psPartial [] env0 fs0 [] =
      .fail ⟨[("a", .vStr "x")], psPartial⟩ "Missing required parameter 'b'." ∧
    (∃ p : Param, lookupGo psPartial "a" = some p ∧ p.type ≠ .PARAM_USAGE) :=
  ⟨rfl, ⟨{ default := some (.vStr "x") }, rfl, by decide⟩⟩

/-- C3 as amended: an argument matched to a declared parameter is recorded
with the literal `"true"` when it holds no `=`; with at least one `=` it is
recorded with the field of the full `=`-split that follows the key, i.e.
the substring strictly between the first `=` and the next one (to the end
when there is no further `=`) — a value itself containing `=` is truncated,
not taken verbatim. -/
theorem c3_value_amended (params : List (String × Param)) (a k v : String)
    (h : matchArg params a = some (k, v)) :
    (containsEq a = false → v = "true") ∧
    (containsEq a = true → v = betweenFirstEqs a) := by
  have hv := matchArg_val params a k v h
  constructor
  · intro hc
    have hnm : '=' ∉ a.data := by
      simpa [containsEq] using hc
    rw [hv]
    have hs : goStringsSplit a '=' = [a] := by
      unfold goStringsSplit
      rw [goSplit_not_mem _ _ hnm]
      rfl
    rw [hs]
    rfl
  · intro hc
    have hm : '=' ∈ a.data := by
      simpa [containsEq] using hc
    obtain ⟨x, r, hr⟩ := goSplit_mem_shape '=' a.data hm
    rw [hv]
    have hs : goStringsSplit a '='
        = (⟨x⟩ : String) :: betweenFirstEqs a :: r.map (fun cs => (⟨cs⟩ : String)) := by
      unfold goStringsSplit
      rw [hr]
      rfl
    rw [hs]
    simp [betweenFirstEqs, List.getD]

/-- Witness for C3 as amended: `-key=a=b` records the truncated `"a"`. -/
theorem c3_value_amended_witness :
    ("a" : String) = betweenFirstEqs "-key=a=b" :=
  (c3_value_amended psKey "-key=a=b" "key" "a" rfl).2 rfl

theorem getVals_mem_aux (env : String → String) (q : String) (hq : env q ≠ "") :
    ∀ (params : List (String × Param)) (acc : List (String × String)),
      (q ∈ params.map Prod.fst ∨ lookupGo acc q = some (env q)) →
      lookupGo
        (List.foldl
          (fun envs np => if env np.1 ≠ "" then insertGo envs np.1 (env np.1) else envs)
          acc params) q = some (env q) := by
  intro params
  induction params with
  | nil =>
      intro acc h
      cases h with
      | inl h => simp at h
      | inr h => simpa using h
  | cons np rest ih =>
      intro acc h
      simp only [List.foldl]
      apply ih
      by_cases he : env np.1 ≠ ""
      · rw [if_pos he]
        by_cases hqn : np.1 = q
        · right
          rw [lookupGo_insertGo, if_pos hqn, hqn]
        · cases h with
          | inl hmem =>
              left
              simp only [List.map_cons, List.mem_cons] at hmem
              cases hmem with
              | inl he2 => exact absurd he2.symm hqn
              | inr hm => exact hm
          | inr hl =>
              right
              rw [lookupGo_insertGo, if_neg hqn]
              exact hl
      · rw [if_neg he]
        cases h with
        | inl hmem =>
            left
            simp only [List.map_cons, List.mem_cons] at hmem
            cases hmem with
            | inl he2 =>
                rw [he2] at hq
                exact absurd (by simpa using he) hq
            | inr hm => exact hm
        | inr hl => exact .inr hl

theorem lookupGo_getVals_mem (params : List (String × Param)) (env : String → String)
    (q : String) (hq : env q ≠ "") (hmem : q ∈ params.map Prod.fst) :
    lookupGo (getValsFromEnvVars params env) q = some (env q) := by
  unfold getValsFromEnvVars
  exact getVals_mem_aux env q hq params [] (.inl hmem)

/-- C2 as amended: the env-read gate seen at the `NewConfig` call site.
When the pre-resolved `PARAM_CONFIG_READ_ENV` value does not parse as
boolean true — the flag is absent from the catalog, or present but
pre-resolving to a false-parsing or unparseable string — the environment
map stays empty and the result of `NewConfig` is independent of the entire
environment: lookup is skipped.  Only when that value parses as boolean
true is `getValsFromEnvVars` consulted, and then every declared parameter
name set in the environment is found in the map `NewConfig` layers. -/
theorem c2_env_amended (params : List (String × Param)) (osArgs : List String)
    (fs : String → Option (List (String × Value))) (stdinDoc : List (String × Value))
    (env env' : String → String) (args : List (String × String))
    (hpc : processCommandLine params osArgs = .ok args) :
    (parseBool (getPreliminaryConfigValue ⟨[], params⟩ args params .PARAM_CONFIG_READ_ENV)
        ≠ some true →
      newConfigEnvs ⟨[], params⟩ args params env = [] ∧
      newConfig params osArgs env fs stdinDoc = newConfig params osArgs env' fs stdinDoc) ∧
    (parseBool (getPreliminaryConfigValue ⟨[], params⟩ args params .PARAM_CONFIG_READ_ENV)
        = some true →
      newConfigEnvs ⟨[], params⟩ args params env = getValsFromEnvVars params env ∧
      ∀ q qp, (q, qp) ∈ params → env q ≠ "" →
        lookupGo (newConfigEnvs ⟨[], params⟩ args params env) q = some (env q)) := by
  constructor
  · intro hgate
    have hoff : ∀ e : String → String, newConfigEnvs ⟨[], params⟩ args params e = [] := by
      intro e
      have hcond : ¬ ((parseBool (getPreliminaryConfigValue ⟨[], params⟩ args params
          .PARAM_CONFIG_READ_ENV)).getD false = true) := by
        cases hpb : parseBool (getPreliminaryConfigValue ⟨[], params⟩ args params
            .PARAM_CONFIG_READ_ENV) with
        | none => simp
        | some b =>
            cases b with
            | true => exact absurd hpb hgate
            | false => simp
      unfold newConfigEnvs
      rw [if_neg hcond]
    refine ⟨hoff env, ?_⟩
    simp only [newConfig, hpc]
    cases hus : isCommandLineUsageTypeTrue args ⟨[], params⟩ with
    | error e => rfl
    | ok bc =>
        obtain ⟨b, config⟩ := bc
        cases b with
        | true => rfl
        | false =>
            simp only []
            have hc : config = ⟨[], params⟩ :=
              usageLoop_false args ⟨[], params⟩ config _ hus
            rw [hc, hoff env, hoff env']
  · intro hgate
    have hon : newConfigEnvs ⟨[], params⟩ args params env
        = getValsFromEnvVars params env := by
      unfold newConfigEnvs
      rw [hgate]
      rfl
    refine ⟨hon, ?_⟩
    intro q qp hmem hq
    rw [hon]
    exact lookupGo_getVals_mem params env q hq (List.mem_map_of_mem Prod.fst hmem)

/-- Witness for C2 as amended, exercising all three gate situations: the
flag present but pre-resolving to `"false"` (skip), the flag absent
entirely (skip), and the flag pre-resolving to `"true"` (the environment
value of `addr` is looked up). -/
theorem c2_env_amended_witness :
    (newConfigEnvs ⟨[], psReadOff⟩ [] psReadOff envAddr = [] ∧
      newConfig psReadOff [] envAddr fs0 [] = newConfig psReadOff [] env0 fs0 []) ∧
    (newConfigEnvs ⟨[], psAddr⟩ [] psAddr envAddr = [] ∧
      newConfig psAddr [] envAddr fs0 [] = newConfig psAddr [] env0 fs0 []) ∧
    lookupGo (newConfigEnvs ⟨[], psReadOn⟩ [] psReadOn envAddr) "addr"
      = some (envAddr "addr") :=
  ⟨(c2_env_amended psReadOff [] fs0 [] envAddr env0 [] rfl).1 (by decide),
   (c2_env_amended psAddr [] fs0 [] envAddr env0 [] rfl).1 (by decide),
   ((c2_env_amended psReadOn [] fs0 [] envAddr env0 [] rfl).2 rfl).2 "addr" {}
     (List.mem_cons_of_mem _ (List.mem_cons_self _ _)) (by decide)⟩

/-- C4 as amended: the usage short-circuit consults only the command-line
source.  When the first `PARAM_USAGE` key has a command-line entry whose raw
value parses as boolean true, `NewConfig` returns early with a config whose
value map holds exactly that flag set to `true` — for every environment and
every file system, so no document is loaded, no other parameter is coerced,
and required-field enforcement does not run. -/
theorem c4_usage_amended (params : List (String × Param)) (osArgs : List String)
    (env : String → String) (fs : String → Option (List (String × Value)))
    (stdinDoc : List (String × Value)) (args : List (String × String))
    (u : String) (rest : List String) (raw : String)
    (hpc : processCommandLine params osArgs = .ok args)
    (hu : getParamKeysByType ⟨[], params⟩ .PARAM_USAGE = u :: rest)
    (hl : lookupGo args u = some raw)
    (hp : parseBoolE raw = .ok true) :
    newConfig params osArgs env fs stdinDoc = .ok ⟨[(u, .vBool true)], params⟩ := by
  have hus : isCommandLineUsageTypeTrue args ⟨[], params⟩
      = .ok (true, ⟨[(u, .vBool true)], params⟩) := by
    unfold isCommandLineUsageTypeTrue
    rw [hu]
    unfold usageFlagsLoop
    simp only [hl, hp]
    rfl
  simp [newConfig, hpc, hus]

/-- Witness for C4 as amended: a bare `-help` switch short-circuits to the
one-entry config, with the file system and environment never consulted. -/
theorem c4_usage_amended_witness :
    newConfig psHelp ["-help"] envAddr fs0 [] = .ok ⟨[("help", .vBool true)], psHelp⟩ :=
  c4_usage_amended psHelp ["-help"] envAddr fs0 [] [("help", "true")]
    "help" [] "true" rfl rfl rfl rfl

theorem processArgsLoop_err (params : List (String × Param)) (osArgs : List String)
    (a : String) (ha : a ∈ osArgs) (hm : matchArg params a = none) :
    ∀ acc, ∃ bad, bad ∈ osArgs ∧ matchArg params bad = none ∧
      processArgsLoop params osArgs acc
        = .error ("'" ++ bad ++ "' is not a supported flag.") := by
  induction osArgs with
  | nil => cases ha
  | cons b rest ih =>
      intro acc
      cases hb : matchArg params b with
      | none =>
          refine ⟨b, List.mem_cons_self _ _, hb, ?_⟩
          simp [processArgsLoop, hb]
      | some kv =>
          obtain ⟨k, v⟩ := kv
          have hab : a ≠ b := by
            intro he
            rw [he, hb] at hm
            cases hm
          have ha' : a ∈ rest := by
            cases List.mem_cons.mp ha with
            | inl h => exact absurd h hab
            | inr h => exact h
          obtain ⟨bad, hmem, hbad, heq⟩ := ih ha' (insertGo acc k v)
          exact ⟨bad, List.mem_cons_of_mem _ hmem, hbad,
            by simp [processArgsLoop, hb, heq]⟩

/-- C6: an argument list containing a token that matches no declared
parameter (after prefix stripping and `=`-splitting, for every candidate
parameter) makes command-line processing abort with the
`not a supported flag` error naming some such offending token; the
`Except.error` return carries no args map at all (the Go code returns the
nil map), and `NewConfig` exits rather than handing any partial map to its
caller. -/
theorem c6_unrecognized_switch (params : List (String × Param)) (osArgs : List String)
    (a : String) (ha : a ∈ osArgs) (hm : matchArg params a = none) :
    ∃ bad, bad ∈ osArgs ∧ matchArg params bad = none ∧
      processCommandLine params osArgs
        = .error ("'" ++ bad ++ "' is not a supported flag.") ∧
      ∀ (env : String → String) (fs : String → Option (List (String × Value)))
        (stdinDoc : List (String × Value)),
        newConfig params osArgs env fs stdinDoc = .exit := by
  obtain ⟨bad, hmem, hbad, heq⟩ := processArgsLoop_err params osArgs a ha hm []
  have hpc : processCommandLine params osArgs
      = .error ("'" ++ bad ++ "' is not a supported flag.") := heq
  refine ⟨bad, hmem, hbad, hpc, ?_⟩
  intro env fs sd
  simp [newConfig, hpc]

/-- Witness for C6 at the spec's `--bogus` example (the default `-` prefix
is stripped once, leaving `-bogus`, which matches nothing). -/
theorem c6_unrecognized_switch_witness :
    ∃ bad, bad ∈ ["--bogus"] ∧ matchArg psKey bad = none ∧
      processCommandLine psKey ["--bogus"]
        = .error ("'" ++ bad ++ "' is not a supported flag.") ∧
      ∀ (env : String → String) (fs : String → Option (List (String × Value)))
        (stdinDoc : List (String × Value)),
        newConfig psKey ["--bogus"] env fs stdinDoc = .exit :=
  c6_unrecognized_switch psKey ["--bogus"] "--bogus" (List.mem_cons_self _ _) rfl

theorem finalize_reach (fv sv : List (String × Value)) (ev av : List (String × String))
    (p : String) (pr : Param) (m : String)
    (hstep : stepParam fv sv ev av p pr = .error (.missingRequired m)) :
    ∀ (pre : List (String × Param)), ∀ (post : List (String × Param)),
      (∀ q qp, (q, qp) ∈ pre → ∃ w, stepParam fv sv ev av q qp = .ok w) →
      ∀ c, ∃ c', finalizeParams fv sv ev av (pre ++ (p, pr) :: post) c = .fail c' m := by
  intro pre
  induction pre with
  | nil =>
      intro post _ c
      refine ⟨c, ?_⟩
      simp [finalizeParams, hstep]
  | cons qqp pre' ih =>
      intro post hpre c
      obtain ⟨q, qp⟩ := qqp
      obtain ⟨w, hw⟩ := hpre q qp (List.mem_cons_self _ _)
      have hpre' : ∀ q' qp', (q', qp') ∈ pre' →
          ∃ w, stepParam fv sv ev av q' qp' = .ok w :=
        fun q' qp' hmem => hpre q' qp' (List.mem_cons_of_mem _ hmem)
      cases w with
      | none =>
          obtain ⟨c', hc'⟩ := ih post hpre' c
          exact ⟨c', by simp [finalizeParams, hw, hc']⟩
      | some v =>
          obtain ⟨c', hc'⟩ := ih post hpre' ⟨insertGo c.values q v, c.params⟩
          exact ⟨c', by simp [finalizeParams, hw, hc']⟩

theorem newConfigFileVals_empty (c : Config) (args : List (String × String))
    (params : List (String × Param)) (fs : String → Option (List (String × Value)))
    (h : getPreliminaryConfigValue c args params .PARAM_CONFIG_JSON_FILE = "") :
    newConfigFileVals c args params fs = some [] := by
  unfold newConfigFileVals
  rw [h]
  simp

theorem newConfigStdinVals_empty (c : Config) (args : List (String × String))
    (params : List (String × Param)) (stdinDoc : List (String × Value))
    (h : parseBool (getPreliminaryConfigValue c args params .PARAM_CONFIG_JSON_STDIN) = none) :
    newConfigStdinVals c args params stdinDoc = some [] := by
  unfold newConfigStdinVals
  rw [h]
  simp

/-- C5: a required parameter that receives no value from default, document,
environment or command-line makes `NewConfig` return the
`Missing required parameter` error naming exactly that parameter (the
hypotheses pin the scenario: no usage short-circuit, no config document, no
stdin document, and every parameter iterated before it resolves without
failing). -/
theorem c5_missing_required (params pre post : List (String × Param)) (p : String)
    (pr : Param) (osArgs : List String) (env : String → String)
    (fs : String → Option (List (String × Value))) (stdinDoc : List (String × Value))
    (args : List (String × String))
    (hps : params = pre ++ (p, pr) :: post)
    (hreq : pr.required = true)
    (hdef : pr.default = none)
    (hpc : processCommandLine params osArgs = .ok args)
    (husage : isCommandLineUsageTypeTrue args ⟨[], params⟩ = .ok (false, ⟨[], params⟩))
    (hfile : getPreliminaryConfigValue ⟨[], params⟩ args params .PARAM_CONFIG_JSON_FILE = "")
    (hstdin : parseBool
      (getPreliminaryConfigValue ⟨[], params⟩ args params .PARAM_CONFIG_JSON_STDIN) = none)
    (henv : env p = "")
    (harg : lookupStr args p = "")
    (hpre : ∀ q qp, (q, qp) ∈ pre →
      ∃ w, stepParam [] [] (newConfigEnvs ⟨[], params⟩ args params env) args q qp = .ok w) :
    ∃ c, newConfig params osArgs env fs stdinDoc
      = .fail c ("Missing required parameter '" ++ p ++ "'.") := by
  have hstep : stepParam [] [] (newConfigEnvs ⟨[], params⟩ args params env) args p pr
      = .error (.missingRequired ("Missing required parameter '" ++ p ++ "'.")) := by
    unfold stepParam
    rw [hdef, lookupStr_newConfigEnvs _ _ _ _ _ henv, harg]
    simp [layerParamValue, goDocGet, lookupGo, hreq]
  obtain ⟨c', hc'⟩ := finalize_reach [] [] (newConfigEnvs ⟨[], params⟩ args params env)
    args p pr _ hstep pre post hpre ⟨[], params⟩
  refine ⟨c', ?_⟩
  rw [← hps] at hc'
  simp only [newConfig, hpc, husage,
    newConfigFileVals_empty ⟨[], params⟩ args params fs hfile,
    newConfigStdinVals_empty ⟨[], params⟩ args params stdinDoc hstdin]
  simpa using hc'

/-- Witness for C5 at the spec's example catalog: required `remote_addr`
absent from every source. -/
theorem c5_missing_required_witness :
    ∃ c, newConfig psRemote [] env0 fs0 []
      = .fail c ("Missing required parameter '" ++ "remote_addr" ++ "'.") :=
  c5_missing_required psRemote [] [] "remote_addr" { required := true } [] env0 fs0 [] []
    rfl rfl rfl rfl rfl rfl rfl rfl rfl
    (fun _ _ hmem => absurd hmem (List.not_mem_nil _))

theorem validateCheck_not_missing (p : Param) (name : String) (v : Value) (m : String) :
    validateCheck p name v ≠ .error (.missingRequired m) := by
  unfold validateCheck
  split
  · split <;> simp
  · simp

theorem stepParam_missing (fv sv : List (String × Value)) (ev av : List (String × String))
    (name : String) (p : Param) (m : String)
    (h : stepParam fv sv ev av name p = .error (.missingRequired m)) :
    m = "Missing required parameter '" ++ name ++ "'." ∧ p.required = true := by
  simp only [stepParam] at h
  split at h
  · split at h
    · rename_i hreq
      cases h
      exact ⟨rfl, hreq⟩
    · split at h
      · cases h
      · exact absurd h (validateCheck_not_missing _ _ _ _)
  · exact absurd h (validateCheck_not_missing _ _ _ _)

theorem finalize_fail_shape (fv sv : List (String × Value)) (ev av : List (String × String)) :
    ∀ (l : List (String × Param)) (c c' : Config) (msg : String),
      finalizeParams fv sv ev av l c = .fail c' msg →
      (∃ pre p pr post,
        l = pre ++ (p, pr) :: post ∧
        pr.required = true ∧
        msg = "Missing required parameter '" ++ p ++ "'." ∧
        (∀ q qp, (q, qp) ∈ pre → ∃ w, stepParam fv sv ev av q qp = .ok w) ∧
        c' = accumValues fv sv ev av pre c) ∨
      c' = ⟨[], []⟩ := by
  intro l
  induction l with
  | nil => intro c c' msg h; cases h
  | cons np rest ih =>
      intro c c' msg h
      obtain ⟨name, p⟩ := np
      simp only [finalizeParams] at h
      cases hs : stepParam fv sv ev av name p with
      | error e =>
          cases e with
          | missingRequired m =>
              simp only [hs] at h
              cases h
              obtain ⟨hm, hrq⟩ := stepParam_missing fv sv ev av name p _ hs
              exact .inl ⟨[], name, p, rest, rfl, hrq, hm,
                fun q qp hmem => absurd hmem (List.not_mem_nil _), rfl⟩
          | validationFailed m =>
              simp only [hs] at h
              cases h
              exact .inr rfl
      | ok w =>
          cases w with
          | none =>
              simp only [hs] at h
              rcases ih _ _ _ h with ⟨pre, pp, ppr, post, hl, hrq, hm, hok, hacc⟩ | hc
              · refine .inl ⟨(name, p) :: pre, pp, ppr, post, by rw [hl]; rfl, hrq, hm, ?_, ?_⟩
                · intro q qp hmem
                  cases List.mem_cons.mp hmem with
                  | inl he =>
                      injection he with h1 h2
                      subst h1; subst h2
                      exact ⟨none, hs⟩
                  | inr hmem' => exact hok q qp hmem'
                · simp [accumValues, hs, hacc]
              · exact .inr hc
          | some v =>
              simp only [hs] at h
              rcases ih _ _ _ h with ⟨pre, pp, ppr, post, hl, hrq, hm, hok, hacc⟩ | hc
              · refine .inl ⟨(name, p) :: pre, pp, ppr, post, by rw [hl]; rfl, hrq, hm, ?_, ?_⟩
                · intro q qp hmem
                  cases List.mem_cons.mp hmem with
                  | inl he =>
                      injection he with h1 h2
                      subst h1; subst h2
                      exact ⟨some v, hs⟩
                  | inr hmem' => exact hok q qp hmem'
                · simp [accumValues, hs, hacc]
              · exact .inr hc

/-- C7 as amended: whenever `NewConfig` returns a non-nil error, either the
error is the missing-required error of a required parameter `p` — and the
returned config is exactly the value map accumulated (from the empty
config, over the run's actual file, stdin, environment and command-line
maps) for the catalog parameters iterated before `p`, all of which resolved
without failing — or the validator failed and the returned config is the
empty `Config{}`.  The original claim that an error never comes with a
partially populated value map holds only for the validator case. -/
theorem c7_error_config (params : List (String × Param)) (osArgs : List String)
    (env : String → String) (fs : String → Option (List (String × Value)))
    (stdinDoc : List (String × Value)) (c : Config) (msg : String)
    (h : newConfig params osArgs env fs stdinDoc = .fail c msg) :
    (∃ args cf cs pre p pr post,
      processCommandLine params osArgs = .ok args ∧
      newConfigFileVals ⟨[], params⟩ args params fs = some cf ∧
      newConfigStdinVals ⟨[], params⟩ args params stdinDoc = some cs ∧
      params = pre ++ (p, pr) :: post ∧
      pr.required = true ∧
      msg = "Missing required parameter '" ++ p ++ "'." ∧
      (∀ q qp, (q, qp) ∈ pre →
        ∃ w, stepParam cf cs (newConfigEnvs ⟨[], params⟩ args params env) args q qp
          = .ok w) ∧
      c = accumValues cf cs (newConfigEnvs ⟨[], params⟩ args params env) args pre
        ⟨[], params⟩) ∨
    c = ⟨[], []⟩ := by
  simp only [newConfig] at h
  cases hpc : processCommandLine params osArgs with
  | error e => simp only [hpc] at h; cases h
  | ok args =>
      simp only [hpc] at h
      cases hus : isCommandLineUsageTypeTrue args ⟨[], params⟩ with
      | error e => simp only [hus] at h; cases h
      | ok bc =>
          obtain ⟨b, config⟩ := bc
          simp only [hus] at h
          cases b with
          | true =>
              rw [if_pos rfl] at h
              cases h
          | false =>
              rw [if_neg (by simp)] at h
              have hcfg : config = ⟨[], params⟩ :=
                usageLoop_false args ⟨[], params⟩ config _ hus
              subst hcfg
              cases hcf : newConfigFileVals ⟨[], params⟩ args params fs with
              | none => simp only [hcf] at h; cases h
              | some cf =>
                  simp only [hcf] at h
                  cases hcs : newConfigStdinVals ⟨[], params⟩ args params stdinDoc with
                  | none => simp only [hcs] at h; cases h
                  | some cs =>
                      simp only [hcs] at h
                      rcases finalize_fail_shape cf cs
                          (newConfigEnvs ⟨[], params⟩ args params env) args
                          params ⟨[], params⟩ c msg h with
                        ⟨pre, p, pr, post, hl, hrq, hm, hok, hacc⟩ | hc
                      · exact .inl ⟨args, cf, cs, pre, p, pr, post, rfl, hcf, hcs,
                          hl, hrq, hm, hok, hacc⟩
                      · exact .inr hc

/-- Witness for C7 as amended, at the missing-required counterexample
input: the returned config is the map accumulated over the prefix before
the failing required `b`. -/
theorem c7_error_config_witness :
    (∃ args cf cs pre p pr post,
      processCommandLine psPartial [] = .ok args ∧
      newConfigFileVals ⟨[], psPartial⟩ args psPartial fs0 = some cf ∧
      newConfigStdinVals ⟨[], psPartial⟩ args psPartial [] = some cs ∧
      psPartial = pre ++ (p, pr) :: post ∧
      pr.required = true ∧
      ("Missing required parameter 'b'." : String)
        = "Missing required parameter '" ++ p ++ "'." ∧
      (∀ q qp, (q, qp) ∈ pre →
        ∃ w, stepParam cf cs (newConfigEnvs ⟨[], psPartial⟩ args psPartial env0) args q qp
          = .ok w) ∧
      (⟨[("a", Value.vStr "x")], psPartial⟩ : Config)
        = accumValues cf cs (newConfigEnvs ⟨[], psPartial⟩ args psPartial env0) args pre
          ⟨[], psPartial⟩) ∨
    (⟨[("a", Value.vStr "x")], psPartial⟩ : Config) = ⟨[], []⟩ :=
  c7_error_config psPartial [] env0 fs0 [] ⟨[("a", .vStr "x")], psPartial⟩
    "Missing required parameter 'b'." rfl

/-- C10: a `PARAM_USAGE` parameter supplied on the command line with a raw
value that does not parse as a boolean makes the usage check return the
parse error, and `NewConfig` then aborts (logs and exits) instead of
continuing resolution — in contrast with ordinary `PARAM_BOOL` coercion,
which swallows the same parse failure into `false` (first conjunct). -/
theorem c10_usage_parse_error (params : List (String × Param)) (osArgs : List String)
    (env : String → String) (fs : String → Option (List (String × Value)))
    (stdinDoc : List (String × Value)) (args : List (String × String))
    (u : String) (rest : List String) (raw : String)
    (hpc : processCommandLine params osArgs = .ok args)
    (hu : getParamKeysByType ⟨[], params⟩ .PARAM_USAGE = u :: rest)
    (hl : lookupGo args u = some raw)
    (hp : parseBool raw = none) :
    coerceValue .PARAM_BOOL (.vStr raw) = .vBool false ∧
    (∃ msg, isCommandLineUsageTypeTrue args ⟨[], params⟩ = .error msg) ∧
    newConfig params osArgs env fs stdinDoc = .exit := by
  obtain ⟨e, he⟩ := parseBool_none raw hp
  have hus : isCommandLineUsageTypeTrue args ⟨[], params⟩ = .error e := by
    unfold isCommandLineUsageTypeTrue
    rw [hu]
    unfold usageFlagsLoop
    simp only [hl, he]
  refine ⟨?_, ⟨e, hus⟩, ?_⟩
  · simp [coerceValue, hp]
  · simp only [newConfig, hpc, hus]

/-- Witness for C10: `-help=banana` makes `NewConfig` abort. -/
theorem c10_usage_parse_error_witness :
    coerceValue .PARAM_BOOL (.vStr "banana") = .vBool false ∧
    (∃ msg, isCommandLineUsageTypeTrue [("help", "banana")] ⟨[], psHelp⟩ = .error msg) ∧
    newConfig psHelp ["-help=banana"] env0 fs0 [] = .exit :=
  c10_usage_parse_error psHelp ["-help=banana"] env0 fs0 [] [("help", "banana")]
    "help" [] "banana" rfl rfl rfl rfl
